import Mathlib

/-!
A shallow embedding, in Lean, of the core of the MLOps dashboard backend:
the WebSocket `ConnectionManager` (backend/backend_api.py), the TTL
`CacheManager` (backend/cache_manager.py) and the `BackgroundTaskManager`
(backend/background_tasks.py), together with theorems checking the
specification's claims about them.

Modelling conventions:
- Python `dict` / `OrderedDict` instances are insertion-ordered association
  lists `List (String × β)`; the front of the list is the oldest entry
  (the least-recently-used end for `OrderedDict`).
- Timestamps (`time.time()`) are integers; the code only ever adds,
  subtracts and compares them.
- A WebSocket transport is identified by an opaque `Nat`; whether a
  `send`/`close` on it raises is supplied as a Boolean-valued oracle, so a
  theorem can quantify over every pattern of transport failures.
- Python values stored in the cache are a small inductive `PyVal` with a
  distinguished `PyVal.none` for Python's `None`.
-/

namespace MLOps

/-- Python runtime values, as far as the cache layer stores and compares
them (`None` is distinguished because `cache_result` tests `is not None`). -/
inductive PyVal where
  | none
  | int (n : Int)
  | str (s : String)
  | bool (b : Bool)
  deriving DecidableEq, Repr

/-- Lookup in an insertion-ordered Python dict. -/
def dictGet {β : Type} (l : List (String × β)) (k : String) : Option β :=
  match l with
  | [] => none
  | p :: t => if p.1 = k then some p.2 else dictGet t k

/-- Python dict assignment `d[k] = v`: update in place when the key exists
(keeping its position, as both dict and OrderedDict do), append otherwise. -/
def dictSet {β : Type} (l : List (String × β)) (k : String) (v : β) :
    List (String × β) :=
  match l with
  | [] => [(k, v)]
  | p :: t => if p.1 = k then (k, v) :: t else p :: dictSet t k v

/-- Python `del d[k]` (a no-op here when the key is absent; every call site
in the source guards with `k in d` or knows the key is present). -/
def dictErase {β : Type} (l : List (String × β)) (k : String) :
    List (String × β) :=
  l.filter (fun p => p.1 ≠ k)

/-- `OrderedDict.move_to_end(k)`: move the entry for `k` to the
most-recently-used end (the back of the list). -/
def dictMoveToEnd {β : Type} (l : List (String × β)) (k : String) :
    List (String × β) :=
  match dictGet l k with
  | none => l
  | some v => dictErase l k ++ [(k, v)]

/-! ### ConnectionManager (backend/backend_api.py, class ConnectionManager) -/

/-- One record in `ConnectionManager.active_connections` (backend_api.py,
lines 65-71): the transport plus bookkeeping fields. -/
structure ConnInfo where
  websocket : Nat
  connected_at : Int
  last_ping : Int
  message_count : Nat
  bytes_sent : Nat
  deriving DecidableEq, Repr

/-- The `ConnectionManager` state (backend_api.py, lines 45-51). -/
structure ConnectionManager where
  active_connections : List (String × ConnInfo)
  max_connections : Nat
  cleanup_interval : Int
  last_cleanup : Int
  deriving DecidableEq, Repr

/-- `ConnectionManager.__init__` (lines 46-51): empty registry,
`max_connections = 100`, `cleanup_interval = 300`, `last_cleanup = now`. -/
def ConnectionManager.init (now : Int) : ConnectionManager :=
  { active_connections := []
    max_connections := 100
    cleanup_interval := 300
    last_cleanup := now }

/-- `_cleanup_if_needed` (lines 119-142).  `closeOk` tells whether closing a
given client's transport raises; the source closes inside
`try/except: pass/finally: del`, so the registry outcome does not depend on
it (see the claim C9 theorem). -/
def ConnectionManager.cleanupIfNeeded (m : ConnectionManager)
    (closeOk : String → Bool) (now : Int) : ConnectionManager :=
  if now - m.last_cleanup < m.cleanup_interval then m
  else
    { m with
      last_cleanup := now
      active_connections :=
        m.active_connections.filter (fun p => ¬ now - p.2.last_ping > 120) }

/-- Outcome of `ConnectionManager.connect`: either the transport is closed
with a code and reason, or a client id is registered. -/
inductive ConnectResult where
  | rejected (code : Nat) (reason : String)
  | accepted (client_id : String)
  deriving DecidableEq, Repr

/-- `ConnectionManager.connect` (lines 53-75).  `fresh` models the
`str(uuid.uuid4())` drawn when no client id is proposed. -/
def ConnectionManager.connect (m : ConnectionManager) (websocket : Nat)
    (client_id : Option String) (fresh : String) (closeOk : String → Bool)
    (now : Int) : ConnectResult × ConnectionManager :=
  if m.active_connections.length ≥ m.max_connections then
    (ConnectResult.rejected 1013 ("Server overloaded"), m)
  else
    let cid := client_id.getD fresh
    let m1 := { m with
      active_connections := dictSet m.active_connections cid
        { websocket := websocket, connected_at := now, last_ping := now,
          message_count := 0, bytes_sent := 0 } }
    (ConnectResult.accepted cid, m1.cleanupIfNeeded closeOk now)

/-- `ConnectionManager.disconnect` (lines 77-86): find the client id whose
record holds this transport and delete it; no-op when absent. -/
def ConnectionManager.disconnect (m : ConnectionManager) (websocket : Nat) :
    ConnectionManager :=
  match m.active_connections.find? (fun p => p.2.websocket = websocket) with
  | none => m
  | some p => { m with active_connections := dictErase m.active_connections p.1 }

/-- `ConnectionManager.update_ping` (lines 114-117). -/
def ConnectionManager.update_ping (m : ConnectionManager) (client_id : String)
    (now : Int) : ConnectionManager :=
  match dictGet m.active_connections client_id with
  | none => m
  | some c =>
      { m with active_connections :=
          dictSet m.active_connections client_id { c with last_ping := now } }

/-- Message priority as passed to `broadcast_json`. -/
inductive Priority where
  | normal
  | low
  deriving DecidableEq, Repr

/-- The loop body of `broadcast_json` (lines 92-107) for one registry entry:
skipped (low priority, stale ping), sent (stats bumped), or failed (marked
for removal).  Returns (entry after the iteration, delivered?, failed?). -/
def broadcastOne (sendOk : Nat → Bool) (priority : Priority) (payloadSize : Nat)
    (now : Int) (p : String × ConnInfo) : (String × ConnInfo) × Bool × Bool :=
  if priority = Priority.low ∧ now - p.2.last_ping > 30 then (p, false, false)
  else if sendOk p.2.websocket then
    ((p.1, { p.2 with
        message_count := p.2.message_count + 1
        bytes_sent := p.2.bytes_sent + payloadSize }), true, false)
  else (p, false, true)

/-- `ConnectionManager.broadcast_json` (lines 88-112).  `sendOk` tells
whether `send_json` on a given transport succeeds; `payloadSize` is
`len(json.dumps(data))`.  Returns the new state and the client ids the
payload was delivered to.  The per-recipient `try/except` of the source is
modelled by `broadcastOne`'s failure branch; the function is total, so a
failed recipient never aborts the broadcast. -/
def ConnectionManager.broadcast_json (m : ConnectionManager) (sendOk : Nat → Bool)
    (priority : Priority) (payloadSize : Nat) (now : Int) :
    ConnectionManager × List String :=
  let results := m.active_connections.map (broadcastOne sendOk priority payloadSize now)
  let updated := results.map (fun r => r.1)
  let disconnected := (results.filter (fun r => r.2.2)).map (fun r => r.1.1)
  let delivered := (results.filter (fun r => r.2.1)).map (fun r => r.1.1)
  ({ m with active_connections :=
      disconnected.foldl (fun cs cid => dictErase cs cid) updated },
   delivered)

/-- One call against the registry, carrying the ambient data (current time,
fresh uuid, transport behavior) that the call reads. -/
inductive ConnOp where
  | connect (websocket : Nat) (client_id : Option String) (fresh : String)
      (closeOk : String → Bool) (now : Int)
  | disconnect (websocket : Nat)
  | update_ping (client_id : String) (now : Int)
  | broadcast (sendOk : Nat → Bool) (priority : Priority) (payloadSize : Nat) (now : Int)
  | cleanup (closeOk : String → Bool) (now : Int)

/-- Apply one registry call. -/
def ConnectionManager.step (m : ConnectionManager) (op : ConnOp) : ConnectionManager :=
  match op with
  | ConnOp.connect ws cid fresh closeOk now => (m.connect ws cid fresh closeOk now).2
  | ConnOp.disconnect ws => m.disconnect ws
  | ConnOp.update_ping cid now => m.update_ping cid now
  | ConnOp.broadcast sendOk priority size now => (m.broadcast_json sendOk priority size now).1
  | ConnOp.cleanup closeOk now => m.cleanupIfNeeded closeOk now

/-- Apply a sequence of registry calls. -/
def ConnectionManager.run (m : ConnectionManager) (ops : List ConnOp) : ConnectionManager :=
  ops.foldl ConnectionManager.step m

/-! ### CacheManager (backend/cache_manager.py) -/

/-- One entry of `CacheManager._cache`: `(value, expiry, access_time)`
(cache_manager.py, line 22). -/
structure CacheEntry where
  value : PyVal
  expiry : Int
  access : Int
  deriving DecidableEq, Repr

/-- The `_stats` counters (lines 29-35). -/
structure CacheStats where
  hits : Nat
  misses : Nat
  evictions : Nat
  expired : Nat
  sets : Nat
  deriving DecidableEq, Repr

/-- `CacheManager` state (lines 21-35): the ordered cache map (front of the
list = oldest / least-recently-used end), configuration and counters. -/
structure CacheManager where
  cache : List (String × CacheEntry)
  default_ttl : Int
  max_cache_size : Nat
  stats : CacheStats
  deriving DecidableEq, Repr

/-- `CacheManager.__init__` (lines 21-35). -/
def CacheManager.mkInit (default_ttl : Int) (max_cache_size : Nat) : CacheManager :=
  { cache := []
    default_ttl := default_ttl
    max_cache_size := max_cache_size
    stats := ⟨0, 0, 0, 0, 0⟩ }

/-- Python `ttl or default`: `None` and `0` are falsy and take the default
(line 86: `expiry = current_time + (ttl or self._default_ttl)`). -/
def pyOr (ttl : Option Int) (d : Int) : Int :=
  match ttl with
  | none => d
  | some v => if v = 0 then d else v

/-- `CacheManager.get` (lines 58-80).  Returns the branch outcome (`none`
for a miss) and the new state; Python's visible return value is
`CacheManager.pyGet` below. -/
def CacheManager.get (m : CacheManager) (key : String) (now : Int) :
    Option PyVal × CacheManager :=
  match dictGet m.cache key with
  | none =>
      (none, { m with stats := { m.stats with misses := m.stats.misses + 1 } })
  | some e =>
      if now ≥ e.expiry then
        (none,
         { m with
            cache := dictErase m.cache key
            stats := { m.stats with
              expired := m.stats.expired + 1
              misses := m.stats.misses + 1 } })
      else
        (some e.value,
         { m with
            cache := dictMoveToEnd (dictSet m.cache key { e with access := now }) key
            stats := { m.stats with hits := m.stats.hits + 1 } })

/-- The value Python's `get` returns: `None` both on a miss and when `None`
was the stored value. -/
def CacheManager.pyGet (m : CacheManager) (key : String) (now : Int) : PyVal :=
  ((m.get key now).1).getD PyVal.none

/-- The `while evicted < count and self._cache` loop of `_evict_entries`
(lines 142-146): pop up to `k` items from the LRU end (the front);
returns the remaining list and how many were popped. -/
def lruEvict {β : Type} (l : List (String × β)) (k : Nat) :
    List (String × β) × Nat :=
  match k, l with
  | 0, l => (l, 0)
  | _ + 1, [] => ([], 0)
  | k + 1, _ :: t =>
      let r := lruEvict t k
      (r.1, r.2 + 1)

/-- `CacheManager._evict_entries` (lines 118-148): remove every expired
entry first, then pop LRU entries until the quota
(`count`, defaulting to `max(1, len // 10)`) is met.  Returns the new state
and the number evicted. -/
def CacheManager.evictEntries (m : CacheManager) (count : Option Nat) (now : Int) :
    CacheManager × Nat :=
  if m.cache.isEmpty then (m, 0)
  else
    let count := count.getD (max 1 (m.cache.length / 10))
    let survivors := m.cache.filter (fun p => ¬ now ≥ p.2.expiry)
    let numExpired := m.cache.length - survivors.length
    let r := lruEvict survivors (count - numExpired)
    ({ m with
        cache := r.1
        stats := { m.stats with
          expired := m.stats.expired + numExpired
          evictions := m.stats.evictions + r.2 } },
     numExpired + r.2)

/-- `CacheManager.set` (lines 82-95). -/
def CacheManager.set (m : CacheManager) (key : String) (value : PyVal)
    (ttl : Option Int) (now : Int) : CacheManager :=
  let expiry := now + pyOr ttl m.default_ttl
  let m1 :=
    if dictGet m.cache key = none ∧ m.cache.length ≥ m.max_cache_size then
      (m.evictEntries none now).1
    else m
  { m1 with
    cache := dictMoveToEnd
      (dictSet m1.cache key { value := value, expiry := expiry, access := now }) key
    stats := { m1.stats with sets := m1.stats.sets + 1 } }

/-- `CacheManager.delete` (lines 97-103). -/
def CacheManager.delete (m : CacheManager) (key : String) : Bool × CacheManager :=
  if (dictGet m.cache key).isSome then
    (true, { m with cache := dictErase m.cache key })
  else (false, m)

/-- `CacheManager.clear` (lines 105-116). -/
def CacheManager.clear (m : CacheManager) : CacheManager :=
  { m with cache := [], stats := ⟨0, 0, 0, 0, 0⟩ }

/-- `CacheManager.cleanup_expired` (lines 150-163): remove every entry with
`expires_at <= now`; returns the count removed and the new state. -/
def CacheManager.cleanup_expired (m : CacheManager) (now : Int) :
    Nat × CacheManager :=
  let expiredKeys := (m.cache.filter (fun p => now ≥ p.2.expiry)).map Prod.fst
  (expiredKeys.length,
   { m with
      cache := m.cache.filter (fun p => ¬ now ≥ p.2.expiry)
      stats := { m.stats with expired := m.stats.expired + expiredKeys.length } })

/-- One call against the cache, from the operation set of the spec's §4.3
(`get`, `set`, `delete`, `clear`, `cleanup_expired`). -/
inductive CacheOp where
  | get (key : String) (now : Int)
  | set (key : String) (value : PyVal) (ttl : Option Int) (now : Int)
  | delete (key : String)
  | clear
  | cleanup (now : Int)
  deriving DecidableEq, Repr

/-- Apply one cache call. -/
def CacheManager.step (m : CacheManager) (op : CacheOp) : CacheManager :=
  match op with
  | CacheOp.get key now => (m.get key now).2
  | CacheOp.set key value ttl now => m.set key value ttl now
  | CacheOp.delete key => (m.delete key).2
  | CacheOp.clear => m.clear
  | CacheOp.cleanup now => (m.cleanup_expired now).2

/-- Apply a sequence of cache calls. -/
def CacheManager.run (m : CacheManager) (ops : List CacheOp) : CacheManager :=
  ops.foldl CacheManager.step m

/-- The `sync_wrapper` body of the `cache_result` decorator
(cache_manager.py, lines 254-268) for one call: `fres` is the value the
wrapped function would return on this call.  Result: (returned value,
new cache state, whether the wrapped function was executed). -/
def cache_result_call (m : CacheManager) (key : String) (fres : PyVal)
    (ttl : Int) (now : Int) : PyVal × CacheManager × Bool :=
  let r := m.get key now
  let cached := r.1.getD PyVal.none
  if cached ≠ PyVal.none then (cached, r.2, false)
  else (fres, r.2.set key fres (some ttl) now, true)

/-! ### BackgroundTaskManager (backend/background_tasks.py) -/

/-- `PeriodicTask` (background_tasks.py, lines 15-25), minus the stored
callable: the callable's behavior enters the model as the success flag of
each run-loop iteration. -/
structure PeriodicTask where
  task_id : String
  interval_seconds : Int
  initial_delay : Int
  last_run : Option Int
  run_count : Nat
  error_count : Nat
  deriving DecidableEq, Repr

/-- `PeriodicTask.__init__` (lines 18-25): counters zeroed, no last run. -/
def PeriodicTask.mk0 (task_id : String) (interval : Int) (delay : Int) :
    PeriodicTask :=
  { task_id := task_id
    interval_seconds := interval
    initial_delay := delay
    last_run := none
    run_count := 0
    error_count := 0 }

/-- One iteration of the while loop in `_run_periodic_task` (lines 71-109):
`ok` is whether `task.func()` returned without raising.  On success
`last_run` and `run_count` are updated (lines 85-86); on an exception only
`error_count` is (line 95): the `run_count += 1` statement sits after the
call inside the `try`, so a raising callable never reaches it. -/
def PeriodicTask.runIteration (t : PeriodicTask) (ok : Bool) (now : Int) :
    PeriodicTask :=
  if ok then { t with last_run := some now, run_count := t.run_count + 1 }
  else { t with error_count := t.error_count + 1 }

/-- The `_periodic_tasks` registry of `BackgroundTaskManager`
(lines 27-36).  The `_tasks` handle map is modelled only through the
`running` oracle passed to `get_task_status`. -/
structure BackgroundTaskManager where
  periodic_tasks : List (String × PeriodicTask)
  deriving DecidableEq, Repr

/-- A manager with no registered tasks. -/
def BackgroundTaskManager.mkInit : BackgroundTaskManager :=
  { periodic_tasks := [] }

/-- `register_periodic_task` (lines 38-52): stores a freshly constructed
`PeriodicTask`, overwriting any existing registration of the same id. -/
def BackgroundTaskManager.register_periodic_task (mgr : BackgroundTaskManager)
    (task_id : String) (interval : Int) (delay : Int) : BackgroundTaskManager :=
  { mgr with periodic_tasks :=
      dictSet mgr.periodic_tasks task_id (PeriodicTask.mk0 task_id interval delay) }

/-- One run-loop iteration of the task registered under `task_id`,
as observed through the registry (the loop mutates the `PeriodicTask`
object it was started with; while that object is the registered one, the
mutation is visible here). -/
def BackgroundTaskManager.iterate (mgr : BackgroundTaskManager)
    (task_id : String) (ok : Bool) (now : Int) : BackgroundTaskManager :=
  match dictGet mgr.periodic_tasks task_id with
  | none => mgr
  | some t =>
      { mgr with periodic_tasks :=
          dictSet mgr.periodic_tasks task_id (t.runIteration ok now) }

/-- One row of `get_task_status` (lines 158-170). -/
structure TaskStatus where
  interval_seconds : Int
  last_run : Option Int
  run_count : Nat
  error_count : Nat
  is_running : Bool
  deriving DecidableEq, Repr

/-- `get_task_status` (lines 158-170); `running` models
`task_id in self._tasks and not self._tasks[task_id].done()`. -/
def BackgroundTaskManager.get_task_status (mgr : BackgroundTaskManager)
    (running : String → Bool) : List (String × TaskStatus) :=
  mgr.periodic_tasks.map (fun p =>
    (p.1, { interval_seconds := p.2.interval_seconds
            last_run := p.2.last_run
            run_count := p.2.run_count
            error_count := p.2.error_count
            is_running := running p.1 }))

/-- A scheduler call touching the task registry: registration, or one
run-loop iteration of a registered task. -/
inductive TaskOp where
  | register (task_id : String) (interval : Int) (delay : Int)
  | iterate (task_id : String) (ok : Bool) (now : Int)
  deriving DecidableEq, Repr

/-- Apply one scheduler call. -/
def BackgroundTaskManager.stepOp (mgr : BackgroundTaskManager) (op : TaskOp) :
    BackgroundTaskManager :=
  match op with
  | TaskOp.register tid i d => mgr.register_periodic_task tid i d
  | TaskOp.iterate tid ok now => mgr.iterate tid ok now

/-- Apply a sequence of scheduler calls. -/
def BackgroundTaskManager.runOps (mgr : BackgroundTaskManager)
    (ops : List TaskOp) : BackgroundTaskManager :=
  ops.foldl BackgroundTaskManager.stepOp mgr

/-! ### Basic dictionary lemmas -/

theorem dictGet_eq_none_iff {β : Type} (l : List (String × β)) (k : String) :
    dictGet l k = none ↔ k ∉ l.map Prod.fst := by
  induction l with
  | nil => simp [dictGet]
  | cons p t ih =>
    simp only [dictGet, List.map_cons, List.mem_cons, not_or]
    by_cases h : p.1 = k
    · subst h
      simp
    · rw [if_neg h, ih]
      constructor
      · intro hk
        exact ⟨fun hh => h hh.symm, hk⟩
      · intro hk
        exact hk.2

theorem dictGet_dictSet_self {β : Type} (l : List (String × β)) (k : String) (v : β) :
    dictGet (dictSet l k v) k = some v := by
  induction l with
  | nil => simp [dictGet, dictSet]
  | cons p t ih =>
    by_cases h : p.1 = k <;> simp [dictGet, dictSet, h, ih]

theorem dictGet_dictSet_ne {β : Type} (l : List (String × β)) (k k' : String) (v : β)
    (h : k' ≠ k) : dictGet (dictSet l k v) k' = dictGet l k' := by
  induction l with
  | nil =>
    have h' : ¬ k = k' := fun hh => h hh.symm
    simp [dictGet, dictSet, h']
  | cons p t ih =>
    by_cases hp : p.1 = k
    · subst hp
      have h' : ¬ p.1 = k' := fun hh => h hh.symm
      simp [dictGet, dictSet, h']
    · simp only [dictSet, if_neg hp]
      by_cases hp' : p.1 = k' <;> simp [dictGet, hp', ih]

theorem length_dictSet_of_none {β : Type} (l : List (String × β)) (k : String) (v : β)
    (h : dictGet l k = none) : (dictSet l k v).length = l.length + 1 := by
  induction l with
  | nil => simp [dictSet]
  | cons p t ih =>
    by_cases hp : p.1 = k
    · simp [dictGet, hp] at h
    · simp only [dictGet, if_neg hp] at h
      simp [dictSet, hp, ih h]

theorem length_dictSet_of_some {β : Type} (l : List (String × β)) (k : String) (v : β)
    (h : (dictGet l k).isSome) : (dictSet l k v).length = l.length := by
  induction l with
  | nil => simp [dictGet] at h
  | cons p t ih =>
    by_cases hp : p.1 = k
    · simp [dictSet, hp]
    · simp only [dictGet, if_neg hp] at h
      simp [dictSet, hp, ih h]

theorem length_dictSet_le {β : Type} (l : List (String × β)) (k : String) (v : β) :
    (dictSet l k v).length ≤ l.length + 1 := by
  rcases h : dictGet l k with _ | w
  · exact (length_dictSet_of_none l k v h).le
  · rw [length_dictSet_of_some l k v (by simp [h])]
    omega

theorem length_dictErase_le {β : Type} (l : List (String × β)) (k : String) :
    (dictErase l k).length ≤ l.length :=
  List.length_filter_le _ l

theorem dictSet_eq_append_of_none {β : Type} (l : List (String × β)) (k : String) (v : β)
    (h : dictGet l k = none) : dictSet l k v = l ++ [(k, v)] := by
  induction l with
  | nil => simp [dictSet]
  | cons p t ih =>
    by_cases hp : p.1 = k
    · simp [dictGet, hp] at h
    · simp only [dictGet, if_neg hp] at h
      simp [dictSet, hp, ih h]

theorem dictErase_eq_self_of_none {β : Type} (l : List (String × β)) (k : String)
    (h : dictGet l k = none) : dictErase l k = l := by
  rw [dictGet_eq_none_iff] at h
  refine List.filter_eq_self.mpr ?_
  intro p hp
  simp only [decide_eq_true_eq]
  intro hk
  exact h (List.mem_map.mpr ⟨p, hp, hk⟩)

theorem dictGet_append_left {β : Type} (l l' : List (String × β)) (k : String)
    (h : dictGet l k = none) : dictGet (l ++ l') k = dictGet l' k := by
  induction l with
  | nil => simp
  | cons p t ih =>
    by_cases hp : p.1 = k
    · simp [dictGet, hp] at h
    · simp only [dictGet, if_neg hp] at h
      simp [dictGet, hp, ih h]

theorem dictGet_dictErase_self {β : Type} (l : List (String × β)) (k : String) :
    dictGet (dictErase l k) k = none := by
  rw [dictGet_eq_none_iff]
  intro hmem
  rcases List.mem_map.mp hmem with ⟨p, hp, hk⟩
  have := List.of_mem_filter hp
  simp only [decide_eq_true_eq] at this
  exact this hk

theorem dictGet_dictMoveToEnd_self {β : Type} (l : List (String × β)) (k : String) :
    dictGet (dictMoveToEnd l k) k = dictGet l k := by
  unfold dictMoveToEnd
  rcases h : dictGet l k with _ | v
  · rw [h]
  · show dictGet (dictErase l k ++ [(k, v)]) k = some v
    rw [dictGet_append_left _ _ _ (dictGet_dictErase_self l k)]
    simp [dictGet]

theorem dictGet_filter_of_pred {β : Type} (l : List (String × β)) (k : String) (v : β)
    (p : String × β → Bool) (hget : dictGet l k = some v) (hp : p (k, v) = true) :
    dictGet (l.filter p) k = some v := by
  induction l with
  | nil => simp [dictGet] at hget
  | cons q t ih =>
    obtain ⟨a, b⟩ := q
    by_cases ha : a = k
    · subst ha
      have hb : b = v := by simpa [dictGet] using hget
      subst hb
      simp [List.filter_cons, hp, dictGet]
    · have hget' : dictGet t k = some v := by simpa [dictGet, ha] using hget
      by_cases hq : p (a, b) = true
      · simp [List.filter_cons, hq, dictGet, ha, ih hget']
      · have hq' : p (a, b) = false := by
          simpa using hq
        simp [List.filter_cons, hq', ih hget']

theorem dictGet_filter_of_not_pred {β : Type} (l : List (String × β)) (k : String) (v : β)
    (p : String × β → Bool) (hnd : (l.map Prod.fst).Nodup)
    (hget : dictGet l k = some v) (hp : p (k, v) = false) :
    dictGet (l.filter p) k = none := by
  induction l with
  | nil => simp [dictGet] at hget
  | cons q t ih =>
    obtain ⟨a, b⟩ := q
    simp only [List.map_cons, List.nodup_cons] at hnd
    by_cases ha : a = k
    · subst ha
      have hb : b = v := by simpa [dictGet] using hget
      subst hb
      simp only [List.filter_cons, hp, Bool.false_eq_true, if_false]
      rw [dictGet_eq_none_iff]
      intro hmem
      exact hnd.1 (((List.filter_sublist t).map Prod.fst).subset hmem)
    · have hget' : dictGet t k = some v := by simpa [dictGet, ha] using hget
      by_cases hq : p (a, b) = true
      · simp [List.filter_cons, hq, dictGet, ha, ih hnd.2 hget']
      · have hq' : p (a, b) = false := by
          simpa using hq
        simp [List.filter_cons, hq', ih hnd.2 hget']

theorem length_dictMoveToEnd_le {β : Type} (l : List (String × β)) (k : String) :
    (dictMoveToEnd l k).length ≤ l.length := by
  unfold dictMoveToEnd
  rcases h : dictGet l k with _ | v
  · exact le_rfl
  · show (dictErase l k ++ [(k, v)]).length ≤ l.length
    have hlt : (dictErase l k).length < l.length := by
      refine List.length_filter_lt_length_iff_exists.mpr ?_
      have hmem : k ∈ l.map Prod.fst := by
        by_contra hk
        rw [← dictGet_eq_none_iff] at hk
        rw [hk] at h
        exact Option.noConfusion h
      rcases List.mem_map.mp hmem with ⟨p, hp, hk⟩
      exact ⟨p, hp, by simp [hk]⟩
    simp only [List.length_append, List.length_singleton]
    omega

/-! ### Registry size and id-uniqueness lemmas -/

theorem length_foldl_dictErase {β : Type} (ks : List String) (l : List (String × β)) :
    (ks.foldl (fun cs cid => dictErase cs cid) l).length ≤ l.length := by
  induction ks generalizing l with
  | nil => exact le_rfl
  | cons k t ih =>
    exact le_trans (ih (dictErase l k)) (length_dictErase_le l k)

theorem foldl_dictErase_sublist {β : Type} (ks : List String) (l : List (String × β)) :
    (ks.foldl (fun cs cid => dictErase cs cid) l).Sublist l := by
  induction ks generalizing l with
  | nil => exact List.Sublist.refl l
  | cons k t ih =>
    exact (ih (dictErase l k)).trans (List.filter_sublist l)

theorem cleanupIfNeeded_max (m : ConnectionManager) (f : String → Bool) (now : Int) :
    (m.cleanupIfNeeded f now).max_connections = m.max_connections := by
  unfold ConnectionManager.cleanupIfNeeded
  split <;> rfl

theorem length_cleanupIfNeeded_le (m : ConnectionManager) (f : String → Bool) (now : Int) :
    (m.cleanupIfNeeded f now).active_connections.length ≤
      m.active_connections.length := by
  unfold ConnectionManager.cleanupIfNeeded
  split
  · exact le_rfl
  · exact List.length_filter_le _ _

theorem step_max (m : ConnectionManager) (op : ConnOp) :
    (m.step op).max_connections = m.max_connections := by
  cases op with
  | connect ws cid fresh closeOk now =>
    show (m.connect ws cid fresh closeOk now).2.max_connections = _
    unfold ConnectionManager.connect
    split
    · rfl
    · exact cleanupIfNeeded_max
        { m with
          active_connections :=
            dictSet m.active_connections (cid.getD fresh)
              { websocket := ws, connected_at := now, last_ping := now,
                message_count := 0, bytes_sent := 0 } }
        closeOk now
  | disconnect ws =>
    show (m.disconnect ws).max_connections = _
    unfold ConnectionManager.disconnect
    split <;> rfl
  | update_ping cid now =>
    show (m.update_ping cid now).max_connections = _
    unfold ConnectionManager.update_ping
    split <;> rfl
  | broadcast sendOk priority size now => rfl
  | cleanup closeOk now => exact cleanupIfNeeded_max m closeOk now

theorem length_broadcast_le (m : ConnectionManager) (sendOk : Nat → Bool)
    (priority : Priority) (size : Nat) (now : Int) :
    (m.broadcast_json sendOk priority size now).1.active_connections.length ≤
      m.active_connections.length := by
  refine le_trans (length_foldl_dictErase _ _) ?_
  simp [ConnectionManager.broadcast_json]

theorem step_length (m : ConnectionManager) (op : ConnOp)
    (h : m.active_connections.length ≤ m.max_connections) :
    (m.step op).active_connections.length ≤ m.max_connections := by
  cases op with
  | connect ws cid fresh closeOk now =>
    show (m.connect ws cid fresh closeOk now).2.active_connections.length ≤ _
    unfold ConnectionManager.connect
    by_cases hfull : m.active_connections.length ≥ m.max_connections
    · rw [if_pos hfull]
      exact h
    · rw [if_neg hfull]
      refine le_trans (length_cleanupIfNeeded_le
        { m with
          active_connections :=
            dictSet m.active_connections (cid.getD fresh)
              { websocket := ws, connected_at := now, last_ping := now,
                message_count := 0, bytes_sent := 0 } }
        closeOk now) ?_
      refine le_trans (length_dictSet_le _ _ _) ?_
      omega
  | disconnect ws =>
    show (m.disconnect ws).active_connections.length ≤ _
    unfold ConnectionManager.disconnect
    split
    · exact h
    · exact le_trans (length_dictErase_le _ _) h
  | update_ping cid now =>
    show (m.update_ping cid now).active_connections.length ≤ _
    unfold ConnectionManager.update_ping
    split
    · exact h
    · next c heq =>
      have hlen : (dictSet m.active_connections cid { c with last_ping := now }).length
          = m.active_connections.length :=
        length_dictSet_of_some _ _ _ (by simp [heq])
      simpa [hlen] using h
  | broadcast sendOk priority size now =>
    exact le_trans (length_broadcast_le m sendOk priority size now) h
  | cleanup closeOk now =>
    exact le_trans (length_cleanupIfNeeded_le m closeOk now) h

theorem mem_keys_dictSet {β : Type} (l : List (String × β)) (k a : String) (v : β) :
    a ∈ (dictSet l k v).map Prod.fst ↔ a = k ∨ a ∈ l.map Prod.fst := by
  induction l with
  | nil => simp [dictSet]
  | cons p t ih =>
    by_cases hp : p.1 = k
    · subst hp
      simp [dictSet]
    · simp [dictSet, hp, ih]
      tauto

theorem nodup_keys_dictSet {β : Type} (l : List (String × β)) (k : String) (v : β)
    (h : (l.map Prod.fst).Nodup) : ((dictSet l k v).map Prod.fst).Nodup := by
  induction l with
  | nil => simp [dictSet]
  | cons p t ih =>
    simp only [List.map_cons, List.nodup_cons] at h
    by_cases hp : p.1 = k
    · subst hp
      have hset : dictSet (p :: t) p.1 v = (p.1, v) :: t := by
        simp [dictSet]
      rw [hset, List.map_cons]
      exact List.nodup_cons.mpr ⟨h.1, h.2⟩
    · simp only [dictSet, if_neg hp, List.map_cons, List.nodup_cons]
      refine ⟨?_, ih h.2⟩
      rw [mem_keys_dictSet]
      push_neg
      exact ⟨hp, h.1⟩

theorem nodup_keys_cleanupIfNeeded (m : ConnectionManager) (f : String → Bool)
    (now : Int) (h : (m.active_connections.map Prod.fst).Nodup) :
    ((m.cleanupIfNeeded f now).active_connections.map Prod.fst).Nodup := by
  unfold ConnectionManager.cleanupIfNeeded
  split
  · exact h
  · exact h.sublist (List.Sublist.map _ (List.filter_sublist _))

theorem broadcastOne_key (sendOk : Nat → Bool) (priority : Priority) (size : Nat)
    (now : Int) (p : String × ConnInfo) :
    ((broadcastOne sendOk priority size now p).1).1 = p.1 := by
  unfold broadcastOne
  split
  · rfl
  · split <;> rfl

theorem nodup_keys_step (m : ConnectionManager) (op : ConnOp)
    (h : (m.active_connections.map Prod.fst).Nodup) :
    ((m.step op).active_connections.map Prod.fst).Nodup := by
  cases op with
  | connect ws cid fresh closeOk now =>
    show (((m.connect ws cid fresh closeOk now).2).active_connections.map Prod.fst).Nodup
    unfold ConnectionManager.connect
    by_cases hfull : m.active_connections.length ≥ m.max_connections
    · rw [if_pos hfull]
      exact h
    · rw [if_neg hfull]
      exact nodup_keys_cleanupIfNeeded _ closeOk now (nodup_keys_dictSet _ _ _ h)
  | disconnect ws =>
    show ((m.disconnect ws).active_connections.map Prod.fst).Nodup
    unfold ConnectionManager.disconnect
    split
    · exact h
    · exact h.sublist (List.Sublist.map _ (List.filter_sublist _))
  | update_ping cid now =>
    show ((m.update_ping cid now).active_connections.map Prod.fst).Nodup
    unfold ConnectionManager.update_ping
    split
    · exact h
    · exact nodup_keys_dictSet _ _ _ h
  | broadcast sendOk priority size now =>
    have hkeys :
        (((m.active_connections.map (broadcastOne sendOk priority size now)).map
            (fun r => r.1)).map Prod.fst) = m.active_connections.map Prod.fst := by
      rw [List.map_map, List.map_map]
      exact List.map_congr_left (fun p _ => broadcastOne_key sendOk priority size now p)
    have hupd :
        (((m.active_connections.map (broadcastOne sendOk priority size now)).map
            (fun r => r.1)).map Prod.fst).Nodup := by
      rw [hkeys]
      exact h
    exact hupd.sublist (List.Sublist.map _ (foldl_dictErase_sublist _ _))
  | cleanup closeOk now =>
    exact nodup_keys_cleanupIfNeeded _ closeOk now h

/-! ### Claim C2 -/

/-- Claim C2: for every finite sequence of registry calls (in particular
every sequence of connect and disconnect calls) the registry never holds
more than `max_connections` entries, and a connect attempted while the
registry already holds at least `max_connections` entries returns rejected
(the transport is closed with code 1013, "Server overloaded") leaving the
registry state — hence every previously registered connection — unchanged. -/
theorem claim_C2 :
    (∀ (t0 : Int) (ops : List ConnOp),
      ((ConnectionManager.init t0).run ops).active_connections.length ≤
        ((ConnectionManager.init t0).run ops).max_connections)
    ∧ (∀ (m : ConnectionManager) (ws : Nat) (cid : Option String) (fresh : String)
        (closeOk : String → Bool) (now : Int),
        m.active_connections.length ≥ m.max_connections →
        m.connect ws cid fresh closeOk now =
          (ConnectResult.rejected 1013 ("Server overloaded"), m)) := by
  constructor
  · have key : ∀ (ops : List ConnOp) (m : ConnectionManager),
        m.active_connections.length ≤ m.max_connections →
        (m.run ops).active_connections.length ≤ (m.run ops).max_connections := by
      intro ops
      induction ops with
      | nil => intro m h; exact h
      | cons op t ih =>
        intro m h
        show ((m.step op).run t).active_connections.length ≤
          ((m.step op).run t).max_connections
        refine ih (m.step op) ?_
        rw [step_max m op]
        exact step_length m op h
    intro t0 ops
    exact key ops (ConnectionManager.init t0) (by simp [ConnectionManager.init])
  · intro m ws cid fresh closeOk now hfull
    unfold ConnectionManager.connect
    rw [if_pos hfull]

/-- Witness for claim C2 at concrete inputs: a one-connect run stays within
the bound, and a connect against a full one-slot registry is rejected
unchanged. -/
theorem claim_C2_witness :
    (((ConnectionManager.init 0).run
        [ConnOp.connect 1 (some ("a")) ("u") (fun _ => true) 0]).active_connections.length ≤
      ((ConnectionManager.init 0).run
        [ConnOp.connect 1 (some ("a")) ("u") (fun _ => true) 0]).max_connections)
    ∧ ((ConnectionManager.mk [(("a"), ⟨1, 0, 0, 0, 0⟩)] 1 300 0).connect 2 none ("u")
        (fun _ => true) 5 =
      (ConnectResult.rejected 1013 ("Server overloaded"),
       ConnectionManager.mk [(("a"), ⟨1, 0, 0, 0, 0⟩)] 1 300 0)) :=
  ⟨claim_C2.1 0 [ConnOp.connect 1 (some ("a")) ("u") (fun _ => true) 0],
   claim_C2.2 (ConnectionManager.mk [(("a"), ⟨1, 0, 0, 0, 0⟩)] 1 300 0) 2 none ("u")
     (fun _ => true) 5 (by decide)⟩

/-! ### Claim C7 -/

/-- Claim C7 counterexample, refuting both halves of the claim.  First
half: with one live connection `"a"` (transport 1), `connect` proposing
the same id `"a"` (transport 2) is accepted and silently replaces the
live connection's record — the old connection is dropped from the
registry without any disconnect, refuting "a connect with a proposed_id
equal to a currently live id does not silently replace that connection".
Second half: after `disconnect` removes `"a"`, a later `connect`
proposing `"a"` for a *different* transport (3) is accepted and `"a"` is
live again — an id once removed *is* assigned again to a different live
connection, refuting "an id once removed is never assigned again". -/
theorem claim_C7_counterexample :
    ((ConnectionManager.mk [(("a"), ⟨1, 0, 0, 0, 0⟩)] 100 300 0).connect 2
        (some ("a")) ("u") (fun _ => true) 5) =
      (ConnectResult.accepted ("a"),
       ConnectionManager.mk [(("a"), ⟨2, 5, 5, 0, 0⟩)] 100 300 0)
    ∧ ((ConnectionManager.mk [(("a"), ⟨1, 0, 0, 0, 0⟩)] 100 300 0).disconnect
        1).active_connections = []
    ∧ (((ConnectionManager.mk [(("a"), ⟨1, 0, 0, 0, 0⟩)] 100 300 0).disconnect
        1).connect 3 (some ("a")) ("u") (fun _ => true) 6) =
      (ConnectResult.accepted ("a"),
       ConnectionManager.mk [(("a"), ⟨3, 6, 6, 0, 0⟩)] 100 300 0) := by
  refine ⟨?_, ?_, ?_⟩ <;> decide

/-- Claim C7 (amended): (i) at every point of every call sequence the live
connection ids are pairwise distinct (the registry is keyed by id); but
(ii) a connect below capacity whose proposed id equals a currently live id
is accepted and silently replaces that connection's record with a fresh one
for the new transport, and (iii) a connect below capacity proposing an id
that is absent from the registry — in particular one that was previously
live and has since been removed — is accepted and that id becomes live
again: the registry keeps no memory of removed ids, so an id once removed
can be assigned to a different live connection when proposed later. -/
theorem claim_C7_amended :
    (∀ (t0 : Int) (ops : List ConnOp),
      (((ConnectionManager.init t0).run ops).active_connections.map Prod.fst).Nodup)
    ∧ (∀ (m : ConnectionManager) (cid : String) (c : ConnInfo) (ws : Nat)
        (fresh : String) (closeOk : String → Bool) (now : Int),
        dictGet m.active_connections cid = some c →
        m.active_connections.length < m.max_connections →
        (m.connect ws (some cid) fresh closeOk now).1 = ConnectResult.accepted cid ∧
        dictGet (m.connect ws (some cid) fresh closeOk now).2.active_connections cid =
          some { websocket := ws, connected_at := now, last_ping := now,
                 message_count := 0, bytes_sent := 0 })
    ∧ (∀ (m : ConnectionManager) (cid : String) (ws : Nat)
        (fresh : String) (closeOk : String → Bool) (now : Int),
        dictGet m.active_connections cid = none →
        m.active_connections.length < m.max_connections →
        (m.connect ws (some cid) fresh closeOk now).1 = ConnectResult.accepted cid ∧
        dictGet (m.connect ws (some cid) fresh closeOk now).2.active_connections cid =
          some { websocket := ws, connected_at := now, last_ping := now,
                 message_count := 0, bytes_sent := 0 }) := by
  refine ⟨?_, ?_, ?_⟩
  · have key : ∀ (ops : List ConnOp) (m : ConnectionManager),
        (m.active_connections.map Prod.fst).Nodup →
        ((m.run ops).active_connections.map Prod.fst).Nodup := by
      intro ops
      induction ops with
      | nil => intro m h; exact h
      | cons op t ih =>
        intro m h
        exact ih (m.step op) (nodup_keys_step m op h)
    intro t0 ops
    exact key ops (ConnectionManager.init t0) (by simp [ConnectionManager.init])
  · intro m cid c ws fresh closeOk now hlive hroom
    have hfull : ¬ m.active_connections.length ≥ m.max_connections := by omega
    unfold ConnectionManager.connect
    rw [if_neg hfull]
    refine ⟨rfl, ?_⟩
    show dictGet
      (ConnectionManager.cleanupIfNeeded
        { m with
          active_connections :=
            dictSet m.active_connections cid
              { websocket := ws, connected_at := now, last_ping := now,
                message_count := 0, bytes_sent := 0 } }
        closeOk now).active_connections cid = _
    unfold ConnectionManager.cleanupIfNeeded
    split
    · exact dictGet_dictSet_self _ _ _
    · refine dictGet_filter_of_pred _ _ _ _ (dictGet_dictSet_self _ _ _) ?_
      simp
  · intro m cid ws fresh closeOk now hgone hroom
    have hfull : ¬ m.active_connections.length ≥ m.max_connections := by omega
    unfold ConnectionManager.connect
    rw [if_neg hfull]
    refine ⟨rfl, ?_⟩
    show dictGet
      (ConnectionManager.cleanupIfNeeded
        { m with
          active_connections :=
            dictSet m.active_connections cid
              { websocket := ws, connected_at := now, last_ping := now,
                message_count := 0, bytes_sent := 0 } }
        closeOk now).active_connections cid = _
    unfold ConnectionManager.cleanupIfNeeded
    split
    · exact dictGet_dictSet_self _ _ _
    · refine dictGet_filter_of_pred _ _ _ _ (dictGet_dictSet_self _ _ _) ?_
      simp

/-- Witness for the amended claim C7: the distinctness invariant after a
concrete run, the concrete replacement behavior, and a removed id
(`"a"`, gone after `disconnect 1`) becoming live again for a different
transport when proposed by a later connect. -/
theorem claim_C7_amended_witness :
    ((((ConnectionManager.init 0).run
        [ConnOp.connect 1 (some ("a")) ("u") (fun _ => true) 0]).active_connections.map
        Prod.fst).Nodup)
    ∧ ((ConnectionManager.mk [(("a"), ⟨1, 0, 0, 0, 0⟩)] 100 300 0).connect 2
        (some ("a")) ("u") (fun _ => true) 5).1 = ConnectResult.accepted ("a")
    ∧ dictGet ((ConnectionManager.mk [(("a"), ⟨1, 0, 0, 0, 0⟩)] 100 300 0).connect 2
        (some ("a")) ("u") (fun _ => true) 5).2.active_connections ("a") =
      some ⟨2, 5, 5, 0, 0⟩
    ∧ (((ConnectionManager.mk [(("a"), ⟨1, 0, 0, 0, 0⟩)] 100 300 0).disconnect 1).connect
        3 (some ("a")) ("u") (fun _ => true) 6).1 = ConnectResult.accepted ("a")
    ∧ dictGet (((ConnectionManager.mk [(("a"), ⟨1, 0, 0, 0, 0⟩)] 100 300 0).disconnect
        1).connect 3 (some ("a")) ("u") (fun _ => true) 6).2.active_connections ("a") =
      some ⟨3, 6, 6, 0, 0⟩ :=
  ⟨claim_C7_amended.1 0 [ConnOp.connect 1 (some ("a")) ("u") (fun _ => true) 0],
   (claim_C7_amended.2.1 (ConnectionManager.mk [(("a"), ⟨1, 0, 0, 0, 0⟩)] 100 300 0)
     ("a") ⟨1, 0, 0, 0, 0⟩ 2 ("u") (fun _ => true) 5 (by decide) (by decide)).1,
   (claim_C7_amended.2.1 (ConnectionManager.mk [(("a"), ⟨1, 0, 0, 0, 0⟩)] 100 300 0)
     ("a") ⟨1, 0, 0, 0, 0⟩ 2 ("u") (fun _ => true) 5 (by decide) (by decide)).2,
   (claim_C7_amended.2.2 ((ConnectionManager.mk [(("a"), ⟨1, 0, 0, 0, 0⟩)] 100 300 0).disconnect 1)
     ("a") 3 ("u") (fun _ => true) 6 (by decide) (by decide)).1,
   (claim_C7_amended.2.2 ((ConnectionManager.mk [(("a"), ⟨1, 0, 0, 0, 0⟩)] 100 300 0).disconnect 1)
     ("a") 3 ("u") (fun _ => true) 6 (by decide) (by decide)).2⟩

/-! ### Claim C1 -/

/-- Claim C1 counterexample: the claim quantifies over *every* broadcast,
but a `priority='low'` broadcast skips any connection whose last ping is
more than 30 seconds old (backend_api.py, line 97).  Registry: #1 has
last_ping 0, #2 and #3 have last_ping 100; at `now = 100` with exactly
#2's send raising, the payload is delivered only to #3 — #1 is skipped,
its counters unchanged — refuting "delivers the payload to connections
#1 and #3". -/
theorem claim_C1_counterexample :
    ((ConnectionManager.mk
        [(("c1"), ⟨1, 0, 0, 0, 0⟩), (("c2"), ⟨2, 0, 100, 0, 0⟩),
         (("c3"), ⟨3, 0, 100, 0, 0⟩)] 100 300 0).broadcast_json
        (fun w => decide (w ≠ 2)) Priority.low 5 100).2 = [("c3")]
    ∧ dictGet ((ConnectionManager.mk
        [(("c1"), ⟨1, 0, 0, 0, 0⟩), (("c2"), ⟨2, 0, 100, 0, 0⟩),
         (("c3"), ⟨3, 0, 100, 0, 0⟩)] 100 300 0).broadcast_json
        (fun w => decide (w ≠ 2)) Priority.low 5 100).1.active_connections ("c1") =
      some ⟨1, 0, 0, 0, 0⟩ := by
  decide

/-- Claim C1 (amended): restricted to broadcasts in which connections #1
and #3 are actually attempted — in particular every `priority='normal'`
broadcast, the default — the claim holds: with 3 registered connections
where exactly #2's send raises, `broadcast_json` delivers to #1 and #3,
increments their `message_count` and `bytes_sent` (by the serialized
payload size), never raises to its caller (it is a total function whose
per-recipient failures are data), and afterwards #2 is gone from the
registry while #1 and #3 remain with their records otherwise unchanged. -/
theorem claim_C1_amended (i1 i2 i3 : String) (c1 c2 c3 : ConnInfo)
    (m : ConnectionManager) (sendOk : Nat → Bool) (payloadSize : Nat) (now : Int)
    (hm : m.active_connections = [(i1, c1), (i2, c2), (i3, c3)])
    (h12 : i1 ≠ i2) (h32 : i3 ≠ i2)
    (h1 : sendOk c1.websocket = true)
    (h2 : sendOk c2.websocket = false)
    (h3 : sendOk c3.websocket = true) :
    m.broadcast_json sendOk Priority.normal payloadSize now =
      ({ m with active_connections :=
          [(i1, { c1 with
              message_count := c1.message_count + 1
              bytes_sent := c1.bytes_sent + payloadSize }),
           (i3, { c3 with
              message_count := c3.message_count + 1
              bytes_sent := c3.bytes_sent + payloadSize })] },
       [i1, i3]) := by
  simp only [ConnectionManager.broadcast_json, hm, List.map_cons, List.map_nil]
  simp [broadcastOne, h1, h2, h3, dictErase, h12, h32]

/-- Witness for the amended claim C1 at a concrete registry. -/
theorem claim_C1_amended_witness :
    (ConnectionManager.mk
        [(("c1"), ⟨1, 0, 0, 0, 0⟩), (("c2"), ⟨2, 0, 0, 0, 0⟩),
         (("c3"), ⟨3, 0, 0, 0, 0⟩)] 100 300 0).broadcast_json
        (fun w => decide (w ≠ 2)) Priority.normal 5 0 =
      (ConnectionManager.mk
        [(("c1"), ⟨1, 0, 0, 1, 5⟩), (("c3"), ⟨3, 0, 0, 1, 5⟩)] 100 300 0,
       [("c1"), ("c3")]) :=
  claim_C1_amended ("c1") ("c2") ("c3") ⟨1, 0, 0, 0, 0⟩ ⟨2, 0, 0, 0, 0⟩ ⟨3, 0, 0, 0, 0⟩
    (ConnectionManager.mk
      [(("c1"), ⟨1, 0, 0, 0, 0⟩), (("c2"), ⟨2, 0, 0, 0, 0⟩),
       (("c3"), ⟨3, 0, 0, 0, 0⟩)] 100 300 0)
    (fun w => decide (w ≠ 2)) 5 0 rfl (by decide) (by decide) (by decide) (by decide)
    (by decide)

/-! ### Claim C9 -/

/-- Claim C9: (i) the cleanup outcome does not depend on whether closing a
stale transport raises (the source closes in `try/except: pass` with the
removal in `finally`); (ii) a `_cleanup_if_needed` call within
`cleanup_interval` (300 s) of the last scan leaves the manager untouched —
the scan runs at most once per interval — and a scan stamps
`last_cleanup = now`; (iii) a connection whose heartbeat is at most 60
seconds old (in particular one refreshed at least every 60 s) is never
removed by the scan; (iv) a connection whose heartbeat is more than 120
seconds old is removed by the next call that actually scans, for every
close outcome. -/
theorem claim_C9 (m : ConnectionManager) (now : Int) (cid : String) (c : ConnInfo) :
    (∀ f g, m.cleanupIfNeeded f now = m.cleanupIfNeeded g now)
    ∧ (now - m.last_cleanup < m.cleanup_interval →
        ∀ f, m.cleanupIfNeeded f now = m)
    ∧ (now - m.last_cleanup ≥ m.cleanup_interval →
        ∀ f, (m.cleanupIfNeeded f now).last_cleanup = now)
    ∧ (∀ f, dictGet m.active_connections cid = some c →
        now - c.last_ping ≤ 60 →
        dictGet (m.cleanupIfNeeded f now).active_connections cid = some c)
    ∧ (∀ f, (m.active_connections.map Prod.fst).Nodup →
        dictGet m.active_connections cid = some c →
        now - c.last_ping > 120 →
        now - m.last_cleanup ≥ m.cleanup_interval →
        dictGet (m.cleanupIfNeeded f now).active_connections cid = none) := by
  refine ⟨fun f g => rfl, ?_, ?_, ?_, ?_⟩
  · intro hgate f
    unfold ConnectionManager.cleanupIfNeeded
    rw [if_pos hgate]
  · intro hdue f
    unfold ConnectionManager.cleanupIfNeeded
    rw [if_neg (by omega)]
  · intro f hget hfreshping
    unfold ConnectionManager.cleanupIfNeeded
    split
    · exact hget
    · refine dictGet_filter_of_pred _ _ _ _ hget ?_
      simp only [decide_eq_true_eq]
      omega
  · intro f hnd hget hstale hdue
    unfold ConnectionManager.cleanupIfNeeded
    rw [if_neg (by omega)]
    refine dictGet_filter_of_not_pred _ _ _ _ hnd hget ?_
    simp only [decide_eq_false_iff_not]
    omega

/-- Witness for claim C9 at a concrete manager: one fresh and one stale
connection at scan time. -/
theorem claim_C9_witness :
    (∀ f g, (ConnectionManager.mk
        [(("fresh"), ⟨1, 0, 460, 0, 0⟩), (("stale"), ⟨2, 0, 0, 0, 0⟩)] 100 300 0).cleanupIfNeeded
        f 500 =
      (ConnectionManager.mk
        [(("fresh"), ⟨1, 0, 460, 0, 0⟩), (("stale"), ⟨2, 0, 0, 0, 0⟩)] 100 300 0).cleanupIfNeeded
        g 500)
    ∧ dictGet ((ConnectionManager.mk
        [(("fresh"), ⟨1, 0, 460, 0, 0⟩), (("stale"), ⟨2, 0, 0, 0, 0⟩)] 100 300 0).cleanupIfNeeded
        (fun _ => false) 500).active_connections ("fresh") = some ⟨1, 0, 460, 0, 0⟩
    ∧ dictGet ((ConnectionManager.mk
        [(("fresh"), ⟨1, 0, 460, 0, 0⟩), (("stale"), ⟨2, 0, 0, 0, 0⟩)] 100 300 0).cleanupIfNeeded
        (fun _ => false) 500).active_connections ("stale") = none :=
  ⟨(claim_C9 (ConnectionManager.mk
      [(("fresh"), ⟨1, 0, 460, 0, 0⟩), (("stale"), ⟨2, 0, 0, 0, 0⟩)] 100 300 0) 500
      ("fresh") ⟨1, 0, 460, 0, 0⟩).1,
   (claim_C9 (ConnectionManager.mk
      [(("fresh"), ⟨1, 0, 460, 0, 0⟩), (("stale"), ⟨2, 0, 0, 0, 0⟩)] 100 300 0) 500
      ("fresh") ⟨1, 0, 460, 0, 0⟩).2.2.2.1 (fun _ => false) (by decide) (by decide),
   (claim_C9 (ConnectionManager.mk
      [(("fresh"), ⟨1, 0, 460, 0, 0⟩), (("stale"), ⟨2, 0, 0, 0, 0⟩)] 100 300 0) 500
      ("stale") ⟨2, 0, 0, 0, 0⟩).2.2.2.2 (fun _ => false) (by decide) (by decide)
      (by decide) (by decide)⟩

/-! ### Cache lemmas -/

theorem isEmpty_eq_false_of_ne {β : Type} (l : List β) (h : l ≠ []) :
    l.isEmpty = false := by
  cases l with
  | nil => exact absurd rfl h
  | cons a t => rfl

theorem lruEvict_fst {β : Type} (k : Nat) (l : List (String × β)) :
    (lruEvict l k).1 = l.drop k := by
  induction k generalizing l with
  | zero => cases l <;> rfl
  | succ n ih =>
    cases l with
    | nil => rfl
    | cons a t => simpa [lruEvict] using ih t

theorem dictGet_eq_none_sublist {β : Type} {l' l : List (String × β)}
    (hs : l'.Sublist l) (k : String) (h : dictGet l k = none) :
    dictGet l' k = none := by
  rw [dictGet_eq_none_iff] at h ⊢
  intro hmem
  exact h ((hs.map Prod.fst).subset hmem)

theorem dictErase_dictSet_self {β : Type} (l : List (String × β)) (k : String) (v : β) :
    dictErase (dictSet l k v) k = dictErase l k := by
  induction l with
  | nil => simp [dictSet, dictErase]
  | cons p t ih =>
    by_cases hp : p.1 = k
    · subst hp
      simp [dictSet, dictErase, List.filter_cons]
    · simp only [dictSet, if_neg hp]
      simp only [dictErase, List.filter_cons] at ih ⊢
      rw [ih]

theorem dictMoveToEnd_dictSet_self {β : Type} (l : List (String × β)) (k : String) (v : β) :
    dictMoveToEnd (dictSet l k v) k = dictErase l k ++ [(k, v)] := by
  unfold dictMoveToEnd
  rw [dictGet_dictSet_self]
  show dictErase (dictSet l k v) k ++ [(k, v)] = _
  rw [dictErase_dictSet_self]

theorem dictMoveToEnd_append_single {β : Type} (l : List (String × β)) (k : String)
    (v : β) (h : dictGet l k = none) :
    dictMoveToEnd (l ++ [(k, v)]) k = l ++ [(k, v)] := by
  have hget : dictGet (l ++ [(k, v)]) k = some v := by
    rw [dictGet_append_left _ _ _ h]
    simp [dictGet]
  unfold dictMoveToEnd
  rw [hget]
  show dictErase (l ++ [(k, v)]) k ++ [(k, v)] = _
  unfold dictErase
  rw [List.filter_append,
    show List.filter (fun p => decide (p.1 ≠ k)) l = l from dictErase_eq_self_of_none l k h]
  simp

theorem evictEntries_none_cache (m : CacheManager) (now : Int) (h : m.cache ≠ []) :
    ((m.evictEntries none now).1).cache =
      (m.cache.filter (fun p => ¬ now ≥ p.2.expiry)).drop
        (max 1 (m.cache.length / 10) -
          (m.cache.length - (m.cache.filter (fun p => ¬ now ≥ p.2.expiry)).length)) := by
  simp only [CacheManager.evictEntries, isEmpty_eq_false_of_ne _ h, Bool.false_eq_true,
    if_false, Option.getD_none, lruEvict_fst]

theorem length_evictEntries_lt (m : CacheManager) (now : Int) (h : m.cache ≠ []) :
    ((m.evictEntries none now).1).cache.length < m.cache.length := by
  rw [evictEntries_none_cache m now h]
  have hf : (m.cache.filter (fun p => ¬ now ≥ p.2.expiry)).length ≤ m.cache.length :=
    List.length_filter_le _ _
  have hlen : 1 ≤ m.cache.length := by
    cases hc : m.cache with
    | nil => exact absurd hc h
    | cons a t => simp
  have hc1 : 1 ≤ max 1 (m.cache.length / 10) := le_max_left _ _
  rw [List.length_drop]
  omega

theorem dictGet_set_self (m : CacheManager) (key : String) (value : PyVal)
    (ttl : Option Int) (now : Int) :
    dictGet (m.set key value ttl now).cache key =
      some { value := value, expiry := now + pyOr ttl m.default_ttl, access := now } := by
  simp only [CacheManager.set]
  rw [dictGet_dictMoveToEnd_self, dictGet_dictSet_self]

theorem length_set_le (m : CacheManager) (key : String) (value : PyVal)
    (ttl : Option Int) (now : Int) (hmax : 1 ≤ m.max_cache_size)
    (h : m.cache.length ≤ m.max_cache_size) :
    (m.set key value ttl now).cache.length ≤ m.max_cache_size := by
  unfold CacheManager.set
  by_cases hcond : dictGet m.cache key = none ∧ m.cache.length ≥ m.max_cache_size
  · rw [if_pos hcond]
    have hne : m.cache ≠ [] := by
      intro hnil
      have h2 := hcond.2
      rw [hnil] at h2
      simp at h2
      omega
    have hlt := length_evictEntries_lt m now hne
    refine le_trans (length_dictMoveToEnd_le _ _) ?_
    refine le_trans (length_dictSet_le _ _ _) ?_
    omega
  · rw [if_neg hcond]
    rcases hk : dictGet m.cache key with _ | e
    · have hroom : ¬ m.cache.length ≥ m.max_cache_size := fun hge => hcond ⟨hk, hge⟩
      refine le_trans (length_dictMoveToEnd_le _ _) ?_
      rw [length_dictSet_of_none _ _ _ hk]
      omega
    · refine le_trans (length_dictMoveToEnd_le _ _) ?_
      rw [length_dictSet_of_some _ _ _ (by simp [hk])]
      exact h

theorem get_eq_absent (m : CacheManager) (key : String) (now : Int)
    (hk : dictGet m.cache key = none) :
    m.get key now =
      (none, { m with stats := { m.stats with misses := m.stats.misses + 1 } }) := by
  unfold CacheManager.get
  rw [hk]

theorem get_eq_expired (m : CacheManager) (key : String) (now : Int) (e : CacheEntry)
    (hk : dictGet m.cache key = some e) (hexp : now ≥ e.expiry) :
    m.get key now =
      (none, { m with
        cache := dictErase m.cache key
        stats := { m.stats with
          expired := m.stats.expired + 1
          misses := m.stats.misses + 1 } }) := by
  simp only [CacheManager.get, hk]
  rw [if_pos hexp]

theorem get_eq_hit (m : CacheManager) (key : String) (now : Int) (e : CacheEntry)
    (hk : dictGet m.cache key = some e) (hexp : ¬ now ≥ e.expiry) :
    m.get key now =
      (some e.value, { m with
        cache := dictMoveToEnd (dictSet m.cache key { e with access := now }) key
        stats := { m.stats with hits := m.stats.hits + 1 } }) := by
  simp only [CacheManager.get, hk]
  rw [if_neg hexp]

theorem cache_step_length (m : CacheManager) (op : CacheOp)
    (hmax : 1 ≤ m.max_cache_size) (h : m.cache.length ≤ m.max_cache_size) :
    (m.step op).cache.length ≤ m.max_cache_size := by
  cases op with
  | get key now =>
    show (m.get key now).2.cache.length ≤ _
    rcases hk : dictGet m.cache key with _ | e
    · rw [get_eq_absent m key now hk]
      exact h
    · by_cases hexp : now ≥ e.expiry
      · rw [get_eq_expired m key now e hk hexp]
        exact le_trans (length_dictErase_le _ _) h
      · rw [get_eq_hit m key now e hk hexp]
        refine le_trans (length_dictMoveToEnd_le _ _) ?_
        rw [length_dictSet_of_some _ _ _ (by simp [hk])]
        exact h
  | set key value ttl now => exact length_set_le m key value ttl now hmax h
  | delete key =>
    show (m.delete key).2.cache.length ≤ _
    unfold CacheManager.delete
    split
    · exact le_trans (length_dictErase_le _ _) h
    · exact h
  | clear =>
    show m.clear.cache.length ≤ _
    simp [CacheManager.clear]
  | cleanup now =>
    exact le_trans (List.length_filter_le _ _) h

theorem cache_step_max (m : CacheManager) (op : CacheOp) :
    (m.step op).max_cache_size = m.max_cache_size := by
  cases op with
  | get key now =>
    show (m.get key now).2.max_cache_size = _
    unfold CacheManager.get
    split
    · rfl
    · split <;> rfl
  | set key value ttl now =>
    show (m.set key value ttl now).max_cache_size = _
    unfold CacheManager.set
    by_cases hcond : dictGet m.cache key = none ∧ m.cache.length ≥ m.max_cache_size
    · rw [if_pos hcond]
      show (m.evictEntries none now).1.max_cache_size = _
      unfold CacheManager.evictEntries
      split <;> rfl
    · rw [if_neg hcond]
  | delete key =>
    show (m.delete key).2.max_cache_size = _
    unfold CacheManager.delete
    split <;> rfl
  | clear => rfl
  | cleanup now => rfl

/-! ### Claim C3 -/

/-- Claim C3: starting from a freshly constructed cache with any positive
`max_cache_size` (the program uses 1000), after every finite sequence of
cache calls — in particular after each `set` returns, with arbitrary keys,
values and TTLs interleaved with the other cache operations — the number of
entries is at most `max_cache_size`.  Quantifying over all sequences covers
the state at each intermediate return. -/
theorem claim_C3 (ttl0 : Int) (maxSize : Nat) (hmax : 1 ≤ maxSize)
    (ops : List CacheOp) :
    ((CacheManager.mkInit ttl0 maxSize).run ops).cache.length ≤ maxSize := by
  have key : ∀ (ops : List CacheOp) (m : CacheManager),
      1 ≤ m.max_cache_size →
      m.cache.length ≤ m.max_cache_size →
      (m.run ops).cache.length ≤ (m.run ops).max_cache_size ∧
        (m.run ops).max_cache_size = m.max_cache_size := by
    intro ops
    induction ops with
    | nil => intro m h1 h2; exact ⟨h2, rfl⟩
    | cons op t ih =>
      intro m h1 h2
      have hmaxeq := cache_step_max m op
      have hstep := cache_step_length m op h1 h2
      have hrun := ih (m.step op) (by rw [hmaxeq]; exact h1) (by rw [hmaxeq]; exact hstep)
      refine ⟨?_, ?_⟩
      · show ((m.step op).run t).cache.length ≤ ((m.step op).run t).max_cache_size
        exact hrun.1
      · show ((m.step op).run t).max_cache_size = m.max_cache_size
        rw [hrun.2, hmaxeq]
  have h := key ops (CacheManager.mkInit ttl0 maxSize) hmax (by simp [CacheManager.mkInit])
  have h1 := h.1
  rw [h.2] at h1
  exact h1

/-- Witness for claim C3: a two-set sequence against a fresh cache of the
program's configured size. -/
theorem claim_C3_witness :
    ((CacheManager.mkInit 300 1000).run
      [CacheOp.set ("k") (PyVal.int 1) none 0,
       CacheOp.set ("k2") (PyVal.int 2) (some 60) 1]).cache.length ≤ 1000 :=
  claim_C3 300 1000 (by decide)
    [CacheOp.set ("k") (PyVal.int 1) none 0,
     CacheOp.set ("k2") (PyVal.int 2) (some 60) 1]

/-! ### Claim C4 -/

/-- Claim C4: when a `set` of a new key finds the cache at capacity, the
resulting cache is exactly: the non-expired entries (every entry already
expired at eviction time is removed first), minus the first
`max(1, len // 10) - numExpired` of them taken from the least-recently-used
end one at a time (only as far as the reduction quota still requires —
none when the expired removals already met it), followed by the new entry
at the most-recently-used end. -/
theorem claim_C4 (m : CacheManager) (key : String) (value : PyVal)
    (ttl : Option Int) (now : Int)
    (hnew : dictGet m.cache key = none)
    (hfull : m.cache.length ≥ m.max_cache_size)
    (hne : m.cache ≠ []) :
    (m.set key value ttl now).cache =
      (m.cache.filter (fun p => ¬ now ≥ p.2.expiry)).drop
          (max 1 (m.cache.length / 10) -
            (m.cache.length - (m.cache.filter (fun p => ¬ now ≥ p.2.expiry)).length))
        ++ [(key, { value := value, expiry := now + pyOr ttl m.default_ttl,
                    access := now })] := by
  have hc := evictEntries_none_cache m now hne
  have habs : dictGet ((m.evictEntries none now).1).cache key = none := by
    rw [hc]
    exact dictGet_eq_none_sublist
      ((List.drop_sublist _ _).trans (List.filter_sublist _)) key hnew
  unfold CacheManager.set
  rw [if_pos ⟨hnew, hfull⟩]
  show dictMoveToEnd (dictSet ((m.evictEntries none now).1).cache key
      { value := value, expiry := now + pyOr ttl m.default_ttl, access := now }) key = _
  rw [dictSet_eq_append_of_none _ _ _ habs, dictMoveToEnd_append_single _ _ _ habs, hc]

/-- Witness for claim C4: a full 3-entry cache with exactly one expired
entry; the set of a new key evicts the expired entry and nothing else
(the quota `max(1, 3 // 10) = 1` is already met), appending the new entry. -/
theorem claim_C4_witness :
    ((CacheManager.mk
        [(("a"), ⟨PyVal.int 1, 50, 0⟩), (("b"), ⟨PyVal.int 2, 500, 1⟩),
         (("c"), ⟨PyVal.int 3, 500, 2⟩)] 300 3 ⟨0, 0, 0, 0, 0⟩).set
      ("d") (PyVal.int 4) none 100).cache =
      [(("b"), ⟨PyVal.int 2, 500, 1⟩), (("c"), ⟨PyVal.int 3, 500, 2⟩),
       (("d"), ⟨PyVal.int 4, 400, 100⟩)] := by
  rw [claim_C4 _ _ _ _ _ (by decide) (by decide) (by decide)]
  decide

/-! ### Claim C8 -/

/-- Claim C8: `get` returns a miss exactly when the key is absent or its
expiry time is at most the current time; a returned value always comes from
a present, unexpired entry (an expired entry is never returned); reading an
expired entry deletes it and increments both the expired and the miss
counters; a hit returns the stored value, moves the entry to the
most-recently-used end (with refreshed access time) and increments the hit
counter. -/
theorem claim_C8 (m : CacheManager) (key : String) (now : Int) :
    ((m.get key now).1 = none ↔
      ∀ e, dictGet m.cache key = some e → e.expiry ≤ now)
    ∧ (∀ v, (m.get key now).1 = some v →
        ∃ e, dictGet m.cache key = some e ∧ now < e.expiry ∧ v = e.value)
    ∧ (∀ e, dictGet m.cache key = some e → now ≥ e.expiry →
        (m.get key now).2.cache = dictErase m.cache key ∧
        (m.get key now).2.stats.expired = m.stats.expired + 1 ∧
        (m.get key now).2.stats.misses = m.stats.misses + 1)
    ∧ (∀ e, dictGet m.cache key = some e → now < e.expiry →
        (m.get key now).1 = some e.value ∧
        (m.get key now).2.cache =
          dictErase m.cache key ++ [(key, { e with access := now })] ∧
        (m.get key now).2.stats.hits = m.stats.hits + 1) := by
  rcases hk : dictGet m.cache key with _ | e
  · have hres := get_eq_absent m key now hk
    refine ⟨?_, ?_, ?_, ?_⟩
    · rw [hres]
      simp
    · intro v hv
      rw [hres] at hv
      exact absurd hv (by simp)
    · intro e he
      exact absurd he (by simp)
    · intro e he
      exact absurd he (by simp)
  · by_cases hexp : now ≥ e.expiry
    · have hres := get_eq_expired m key now e hk hexp
      refine ⟨?_, ?_, ?_, ?_⟩
      · rw [hres]
        constructor
        · intro _ e' he'
          injection he' with he''
          rw [← he'']
          exact hexp
        · intro _
          rfl
      · intro v hv
        rw [hres] at hv
        exact absurd hv (by simp)
      · intro e' he' _
        rw [hres]
        exact ⟨rfl, rfl, rfl⟩
      · intro e' he' hlt
        injection he' with he''
        rw [← he''] at hlt
        omega
    · have hlt : now < e.expiry := lt_of_not_ge hexp
      have hres := get_eq_hit m key now e hk hexp
      refine ⟨?_, ?_, ?_, ?_⟩
      · rw [hres]
        constructor
        · intro hno
          exact absurd hno (by simp)
        · intro hall
          exact absurd (hall e rfl) (by omega)
      · intro v hv
        rw [hres] at hv
        injection hv with hv'
        exact ⟨e, rfl, hlt, hv'.symm⟩
      · intro e' he' hge
        injection he' with he''
        rw [← he''] at hge
        omega
      · intro e' he' _
        injection he' with he''
        subst he''
        rw [hres]
        exact ⟨rfl, dictMoveToEnd_dictSet_self _ _ _, rfl⟩

/-- Witness for claim C8: a hit on a one-entry cache moves the entry to
the MRU end with refreshed access time and bumps the hit counter. -/
theorem claim_C8_witness :
    ((CacheManager.mk [(("a"), ⟨PyVal.int 7, 100, 0⟩)] 300 10 ⟨0, 0, 0, 0, 0⟩).get
        ("a") 10).1 = some (PyVal.int 7)
    ∧ ((CacheManager.mk [(("a"), ⟨PyVal.int 7, 100, 0⟩)] 300 10 ⟨0, 0, 0, 0, 0⟩).get
        ("a") 10).2.cache =
      dictErase [(("a"), ⟨PyVal.int 7, 100, 0⟩)] ("a") ++ [(("a"), ⟨PyVal.int 7, 100, 10⟩)]
    ∧ ((CacheManager.mk [(("a"), ⟨PyVal.int 7, 100, 0⟩)] 300 10 ⟨0, 0, 0, 0, 0⟩).get
        ("a") 10).2.stats.hits = 1 :=
  (claim_C8 (CacheManager.mk [(("a"), ⟨PyVal.int 7, 100, 0⟩)] 300 10 ⟨0, 0, 0, 0, 0⟩)
    ("a") 10).2.2.2 ⟨PyVal.int 7, 100, 0⟩ (by decide) (by decide)

/-! ### Claim C10 -/

/-- Claim C10: a stored `None` is indistinguishable from a miss by `get`'s
return value — after `set(k, None, ttl)` an unexpired read returns `None`,
the same value returned for an absent key — and consequently the
`cache_result` decorator (whose wrapper tests `cached is not None`) treats
a cached `None` as a miss and re-executes the wrapped function on every
call whose visible cached value is `None`. -/
theorem claim_C10 :
    (∀ (m : CacheManager) (key : String) (ttl : Option Int) (now t : Int),
      t < now + pyOr ttl m.default_ttl →
      (m.set key PyVal.none ttl now).pyGet key t = PyVal.none)
    ∧ (∀ (m : CacheManager) (key : String) (now : Int),
        dictGet m.cache key = none → m.pyGet key now = PyVal.none)
    ∧ (∀ (m : CacheManager) (key : String) (fres : PyVal) (ttl now : Int),
        (m.get key now).1.getD PyVal.none = PyVal.none →
        (cache_result_call m key fres ttl now).2.2 = true) := by
  refine ⟨?_, ?_, ?_⟩
  · intro m key ttl now t hlt
    unfold CacheManager.pyGet
    rw [get_eq_hit (m.set key PyVal.none ttl now) key t
      { value := PyVal.none, expiry := now + pyOr ttl m.default_ttl, access := now }
      (dictGet_set_self m key PyVal.none ttl now) (by simp; omega)]
    rfl
  · intro m key now hk
    unfold CacheManager.pyGet
    rw [get_eq_absent m key now hk]
    rfl
  · intro m key fres ttl now h
    simp [cache_result_call, h]

/-- Witness for claim C10: a cached `None` read back unexpired is `None`,
exactly what an absent key returns, and the decorator re-executes. -/
theorem claim_C10_witness :
    ((CacheManager.mkInit 300 10).set ("k") PyVal.none none 0).pyGet ("k") 5 = PyVal.none
    ∧ (CacheManager.mkInit 300 10).pyGet ("x") 0 = PyVal.none
    ∧ (cache_result_call ((CacheManager.mkInit 300 10).set ("k") PyVal.none none 0)
        ("k") (PyVal.int 3) 60 5).2.2 = true :=
  ⟨claim_C10.1 (CacheManager.mkInit 300 10) ("k") none 0 5 (by decide),
   claim_C10.2.1 (CacheManager.mkInit 300 10) ("x") 0 (by decide),
   claim_C10.2.2 ((CacheManager.mkInit 300 10).set ("k") PyVal.none none 0)
     ("k") (PyVal.int 3) 60 5 (by decide)⟩

/-! ### Task-scheduler lemmas -/

theorem dictGet_status (ptasks : List (String × PeriodicTask)) (running : String → Bool)
    (tid : String) :
    dictGet (ptasks.map (fun p =>
      (p.1, ({ interval_seconds := p.2.interval_seconds, last_run := p.2.last_run,
               run_count := p.2.run_count, error_count := p.2.error_count,
               is_running := running p.1 } : TaskStatus)))) tid =
      (dictGet ptasks tid).map (fun t =>
        ({ interval_seconds := t.interval_seconds, last_run := t.last_run,
           run_count := t.run_count, error_count := t.error_count,
           is_running := running tid } : TaskStatus)) := by
  induction ptasks with
  | nil => rfl
  | cons p t ih =>
    by_cases hp : p.1 = tid
    · subst hp
      simp [dictGet]
    · simp [dictGet, hp, ih]

theorem runIteration_run_le (t : PeriodicTask) (ok : Bool) (now : Int) :
    t.run_count ≤ (t.runIteration ok now).run_count := by
  unfold PeriodicTask.runIteration
  split <;> simp

theorem runIteration_error_le (t : PeriodicTask) (ok : Bool) (now : Int) :
    t.error_count ≤ (t.runIteration ok now).error_count := by
  unfold PeriodicTask.runIteration
  split <;> simp

/-! ### Claim C5 -/

/-- Claim C5 counterexample: one run-loop iteration of a task whose callable
raises.  The claim says `run_count` should then be `n = 1` with
`error_count = run_count`; the code increments `run_count` only *after*
`task.func()` returns inside the `try`, so after one failing iteration
`run_count` is 0 while `error_count` is 1 — `run_count = 0 ≠ 1 = n`. -/
theorem claim_C5_counterexample :
    dictGet ((((BackgroundTaskManager.mkInit).register_periodic_task ("ping") 1 0).iterate
        ("ping") false 1).get_task_status (fun _ => true)) ("ping") =
      some { interval_seconds := 1, last_run := none, run_count := 0,
             error_count := 1, is_running := true }
    ∧ (0 : Nat) ≠ 1 := by
  constructor
  · decide
  · decide

/-- Claim C5 (amended): for a registered periodic task whose callable raises
on every invocation, after `n` completed loop iterations the task's
`error_count` equals `n` (one per interval) while `run_count` stays 0 —
`run_count` counts only successful executions, so it never matches
`error_count` once a failure occurs; the task is never removed from the
registry and the loop keeps iterating after each failure (the statement
holds for every `n`). -/
theorem claim_C5_amended (mgr : BackgroundTaskManager) (tid : String)
    (interval delay : Int) (times : List Int) (running : String → Bool) :
    dictGet ((times.foldl (fun g now => g.iterate tid false now)
        (mgr.register_periodic_task tid interval delay)).get_task_status running) tid =
      some { interval_seconds := interval, last_run := none, run_count := 0,
             error_count := times.length, is_running := running tid } := by
  have hbase : dictGet (mgr.register_periodic_task tid interval delay).periodic_tasks tid
      = some (PeriodicTask.mk0 tid interval delay) := dictGet_dictSet_self _ _ _
  have key : ∀ (ts : List Int) (g : BackgroundTaskManager) (t : PeriodicTask),
      dictGet g.periodic_tasks tid = some t →
      dictGet ((ts.foldl (fun g now => g.iterate tid false now) g)).periodic_tasks tid =
        some { t with error_count := t.error_count + ts.length } := by
    intro ts
    induction ts with
    | nil =>
      intro g t h
      simpa using h
    | cons now rest ih =>
      intro g t h
      have hstep : dictGet (g.iterate tid false now).periodic_tasks tid =
          some { t with error_count := t.error_count + 1 } := by
        unfold BackgroundTaskManager.iterate
        rw [h]
        show dictGet (dictSet g.periodic_tasks tid (t.runIteration false now)) tid = _
        rw [dictGet_dictSet_self]
        rfl
      have hrest := ih (g.iterate tid false now) _ hstep
      show dictGet ((rest.foldl (fun g now => g.iterate tid false now)
          (g.iterate tid false now))).periodic_tasks tid = _
      rw [hrest]
      simp [Nat.add_assoc, Nat.add_comm, Nat.add_left_comm]
  have htasks := key times (mgr.register_periodic_task tid interval delay) _ hbase
  show dictGet (((times.foldl (fun g now => g.iterate tid false now)
      (mgr.register_periodic_task tid interval delay))).periodic_tasks.map (fun p =>
        (p.1, ({ interval_seconds := p.2.interval_seconds, last_run := p.2.last_run,
                 run_count := p.2.run_count, error_count := p.2.error_count,
                 is_running := running p.1 } : TaskStatus)))) tid = _
  rw [dictGet_status, htasks]
  simp [PeriodicTask.mk0]

/-! ### Claim C6 -/

/-- Claim C6 counterexample: the claim includes re-registering an existing
`task_id` among the allowed operations and asserts `run_count` never
decreases, but `register_periodic_task` stores a *fresh* `PeriodicTask`
with zeroed counters: after one successful iteration the status shows
`run_count = 1`, and after re-registering the same id it shows
`run_count = 0` — a decrease. -/
theorem claim_C6_counterexample :
    dictGet (((BackgroundTaskManager.mkInit.register_periodic_task ("t") 1 0).iterate
        ("t") true 10).get_task_status (fun _ => true)) ("t") =
      some { interval_seconds := 1, last_run := some 10, run_count := 1,
             error_count := 0, is_running := true }
    ∧ dictGet ((((BackgroundTaskManager.mkInit.register_periodic_task ("t") 1 0).iterate
        ("t") true 10).register_periodic_task ("t") 1 0).get_task_status
        (fun _ => true)) ("t") =
      some { interval_seconds := 1, last_run := none, run_count := 0,
             error_count := 0, is_running := true } := by
  constructor
  · decide
  · decide

/-- Claim C6 (amended): for every sequence of scheduler operations that
never re-registers the observed `task_id`, the `run_count` and
`error_count` visible through `get_task_status` for that id never decrease;
re-registering an existing id, however, replaces the task with a fresh
`PeriodicTask` and resets both counters to 0 (see the counterexample). -/
theorem claim_C6_amended (mgr : BackgroundTaskManager) (ops : List TaskOp)
    (tid : String) (t : PeriodicTask) (running : String → Bool)
    (hreg : dictGet mgr.periodic_tasks tid = some t)
    (hops : ∀ op ∈ ops, ∀ i d, op ≠ TaskOp.register tid i d) :
    ∃ s, dictGet ((mgr.runOps ops).get_task_status running) tid = some s ∧
      t.run_count ≤ s.run_count ∧ t.error_count ≤ s.error_count := by
  have key : ∀ (ops : List TaskOp) (g : BackgroundTaskManager) (t : PeriodicTask),
      dictGet g.periodic_tasks tid = some t →
      (∀ op ∈ ops, ∀ i d, op ≠ TaskOp.register tid i d) →
      ∃ t', dictGet (g.runOps ops).periodic_tasks tid = some t' ∧
        t.run_count ≤ t'.run_count ∧ t.error_count ≤ t'.error_count := by
    intro ops
    induction ops with
    | nil =>
      intro g t h _
      exact ⟨t, h, le_rfl, le_rfl⟩
    | cons op rest ih =>
      intro g t h hops
      have hop := hops op (List.mem_cons_self _ _)
      have hrest : ∀ o ∈ rest, ∀ i d, o ≠ TaskOp.register tid i d :=
        fun o ho => hops o (List.mem_cons_of_mem _ ho)
      cases op with
      | register id i d =>
        have hne : tid ≠ id := by
          intro hid
          exact hop i d (by rw [hid])
        have h' : dictGet (g.register_periodic_task id i d).periodic_tasks tid
            = some t := by
          show dictGet (dictSet g.periodic_tasks id (PeriodicTask.mk0 id i d)) tid = _
          rw [dictGet_dictSet_ne _ _ _ _ hne]
          exact h
        exact ih (g.register_periodic_task id i d) t h' hrest
      | iterate id ok now =>
        by_cases hid : id = tid
        · subst hid
          have h' : dictGet (g.iterate id ok now).periodic_tasks id =
              some (t.runIteration ok now) := by
            unfold BackgroundTaskManager.iterate
            rw [h]
            show dictGet (dictSet g.periodic_tasks id (t.runIteration ok now)) id = _
            rw [dictGet_dictSet_self]
          obtain ⟨t', ht', hrc, hec⟩ := ih (g.iterate id ok now) _ h' hrest
          exact ⟨t', ht', le_trans (runIteration_run_le t ok now) hrc,
            le_trans (runIteration_error_le t ok now) hec⟩
        · have h' : dictGet (g.iterate id ok now).periodic_tasks tid = some t := by
            unfold BackgroundTaskManager.iterate
            rcases hdg : dictGet g.periodic_tasks id with _ | u
            · exact h
            · show dictGet (dictSet g.periodic_tasks id (u.runIteration ok now)) tid = _
              rw [dictGet_dictSet_ne _ _ _ _ (fun hh => hid hh.symm)]
              exact h
          exact ih (g.iterate id ok now) t h' hrest
  obtain ⟨t', ht', hrc, hec⟩ := key ops mgr t hreg hops
  refine ⟨{ interval_seconds := t'.interval_seconds, last_run := t'.last_run,
            run_count := t'.run_count, error_count := t'.error_count,
            is_running := running tid }, ?_, hrc, hec⟩
  show dictGet ((mgr.runOps ops).periodic_tasks.map (fun p =>
      (p.1, ({ interval_seconds := p.2.interval_seconds, last_run := p.2.last_run,
               run_count := p.2.run_count, error_count := p.2.error_count,
               is_running := running p.1 } : TaskStatus)))) tid = _
  rw [dictGet_status, ht']
  rfl

/-- Witness for the amended claim C6: one successful iteration on a
registered task, with no re-registration in the sequence. -/
theorem claim_C6_amended_witness :
    ∃ s, dictGet (((BackgroundTaskManager.mk
        [(("t"), PeriodicTask.mk0 ("t") 1 0)]).runOps
        [TaskOp.iterate ("t") true 5]).get_task_status (fun _ => true)) ("t") = some s ∧
      (PeriodicTask.mk0 ("t") 1 0).run_count ≤ s.run_count ∧
      (PeriodicTask.mk0 ("t") 1 0).error_count ≤ s.error_count :=
  claim_C6_amended (BackgroundTaskManager.mk [(("t"), PeriodicTask.mk0 ("t") 1 0)])
    [TaskOp.iterate ("t") true 5] ("t") (PeriodicTask.mk0 ("t") 1 0) (fun _ => true)
    (by decide)
    (by
      intro op hop i d
      rw [List.mem_singleton] at hop
      subst hop
      intro hcontra
      exact TaskOp.noConfusion hcontra)

end MLOps
